import Mathlib

set_option linter.dupNamespace false

/-!
Verification of the SQL tokenizer and parser of `src/src/parser.rs`
(datafusion-rs front end): a shallow embedding of the tokenizer, the
precedence-climbing expression parser and the statement parsers, with the
parser state (a read-only token sequence and a cursor index) passed
explicitly.  Recursive loops of the source are embedded with an explicit
fuel argument; `none` marks fuel exhaustion, so a run of the source that
never terminates is a function that returns `none` at every fuel.
-/

namespace DataFusion

/-- Modelled from the spec: the SQL comparison operators (external type
`SQLOperator` of the `sql` module, whose file is not among the sources;
only the five operators produced by `to_sql_operator` are needed). -/
inductive SQLOperator
  | EQ | LT | LTEQ | GT | GTEQ
  deriving DecidableEq, Repr

/-- Modelled from the spec: SQL scalar types (external type `SQLType`):
DOUBLE, or VARCHAR with a length. -/
inductive SQLType
  | Double
  | Varchar (length : Nat)
  deriving DecidableEq, Repr

/-- Modelled from the spec: a column definition (external type
`SQLColumnDef`): name, scalar type and nullability flag. -/
structure SQLColumnDef where
  name : String
  data_type : SQLType
  allow_null : Bool
  deriving DecidableEq, Repr

/-- Modelled from the spec: AST nodes (external type `ASTNode`), with the
variants the parser constructs: identifier, integer literal, function
call, binary expression, SELECT and CREATE TABLE statements. -/
inductive ASTNode
  | SQLIdentifier (id : String)
  | SQLLiteralInt (v : Int)
  | SQLFunction (id : String) (args : List ASTNode)
  | SQLBinaryExpr (left : ASTNode) (op : SQLOperator) (right : ASTNode)
  | SQLSelect (projection : List ASTNode) (selection : Option ASTNode)
      (relation : Option ASTNode) (limit : Option ASTNode) (order : Option ASTNode)
  | SQLCreateTable (name : String) (columns : List SQLColumnDef)
  deriving Repr

/-- `enum Token` of the source (the commented-out second `Operator(String)`
variant of the source is not repeated). -/
inductive Token
  | Identifier (s : String)
  | Keyword (s : String)
  | Operator (s : String)
  | Number (s : String)
  | Comma
  | Whitespace
  | Eq | Neq | Lt | Gt | LtEq | GtEq
  | Plus | Minus | Mult | Div
  | LParen | RParen
  deriving DecidableEq, Repr

/-- `enum ParserError` of the source: a tokenizer error or a parser error,
each carrying a message. -/
inductive ParserError
  | TokenizerError (msg : String)
  | ParserError (msg : String)
  deriving DecidableEq, Repr

/-- `static KEYWORDS` of the source: the fixed SQL keyword list. -/
def KEYWORDS : List String :=
  ["SELECT", "FROM", "WHERE", "LIMIT", "ORDER", "GROUP", "BY", "HAVING",
   "UNION", "ALL", "INSERT", "UPDATE", "DELETE", "IN", "NOT", "NULL",
   "SET", "CREATE", "EXTERNAL", "TABLE",
   "VARCHAR", "DOUBLE"]

/-- The whitespace characters of `next_token`: space, tab, newline. -/
def isWsChar (c : Char) : Bool := c = ' ' || c = '\t' || c = '\n'

/-- ASCII letters, as the ranges of the source's match arms. -/
def isLetterChar (c : Char) : Bool :=
  ('a' ≤ c && c ≤ 'z') || ('A' ≤ c && c ≤ 'Z')

/-- ASCII digits. -/
def isDigitChar (c : Char) : Bool := '0' ≤ c && c ≤ '9'

/-- A character that starts the identifier/keyword arm: letter, `_` or `@`. -/
def isIdentStart (c : Char) : Bool := isLetterChar c || c = '_' || c = '@'

/-- A character the identifier arm's inner loop consumes: letter, `_` or
digit - note `@` is absent, exactly as in the source. -/
def isIdentCont (c : Char) : Bool := isLetterChar c || c = '_' || isDigitChar c

/-- `Tokenizer::next_token`: one step of the tokenizer on the remaining
character list; `ok none` is end of input, otherwise the token produced and
the remaining characters. -/
def nextToken : List Char → Except ParserError (Option (Token × List Char))
  | [] => .ok none
  | c :: rest =>
    if isWsChar c then .ok (some (.Whitespace, rest))
    else if isIdentStart c then
      let s := String.mk (List.takeWhile isIdentCont (c :: rest))
      let rem := List.dropWhile isIdentCont (c :: rest)
      if KEYWORDS.contains s then .ok (some (.Keyword s, rem))
      else .ok (some (.Identifier s, rem))
    else if isDigitChar c then
      .ok (some (.Number (String.mk (List.takeWhile isDigitChar (c :: rest))),
        List.dropWhile isDigitChar (c :: rest)))
    else if c = ',' then .ok (some (.Comma, rest))
    else if c = '(' then .ok (some (.LParen, rest))
    else if c = ')' then .ok (some (.RParen, rest))
    else if c = '+' then .ok (some (.Plus, rest))
    else if c = '-' then .ok (some (.Minus, rest))
    else if c = '*' then .ok (some (.Mult, rest))
    else if c = '/' then .ok (some (.Div, rest))
    else if c = '=' then .ok (some (.Eq, rest))
    else if c = '<' then
      match rest with
      | [] => .ok (some (.Lt, []))
      | d :: rest2 =>
        if d = '=' then .ok (some (.LtEq, rest2))
        else if d = '>' then .ok (some (.Neq, rest2))
        else .ok (some (.Lt, d :: rest2))
    else if c = '>' then
      match rest with
      | [] => .ok (some (.Gt, []))
      | d :: rest2 =>
        if d = '=' then .ok (some (.GtEq, rest2))
        else .ok (some (.Gt, d :: rest2))
    else .error (.TokenizerError ("unhandled char '" ++ String.mk [c] ++ "' in tokenizer"))

/-- The `while let` loop of `Tokenizer::tokenize`, with fuel: `none` is
fuel exhaustion (the loop of the source did not finish within `fuel`
steps). -/
def tokLoop : Nat → List Char → Option (Except ParserError (List Token))
  | 0, _ => none
  | fuel + 1, cs =>
    match nextToken cs with
    | .error e => some (.error e)
    | .ok none => some (.ok [])
    | .ok (some (t, cs')) =>
      match tokLoop fuel cs' with
      | none => none
      | some (.error e) => some (.error e)
      | some (.ok ts) => some (.ok (t :: ts))

/-- The whitespace filter applied at the end of `tokenize`. -/
def notWhitespace (t : Token) : Bool :=
  match t with
  | .Whitespace => false
  | _ => true

/-- `Tokenizer::tokenize`: run the token loop over the query's characters
and drop the `Whitespace` tokens.  One fuel unit is spent per produced
token; every productive step consumes at least one character, so
`length + 1` fuel suffices for every run of the source that terminates,
and a run that stalls returns `none` at every fuel. -/
def tokenize (query : String) : Option (Except ParserError (List Token)) :=
  match tokLoop (query.length + 1) query.data with
  | none => none
  | some (.error e) => some (.error e)
  | some (.ok ts) => some (.ok (ts.filter notWhitespace))

/-- Rust's `derive(Debug)` rendering of a `String` payload. -/
def strDebug (s : String) : String := "\"" ++ s ++ "\""

/-- Rust's `derive(Debug)` rendering of a `Token`, as used by the source's
`format!("{:?}", tok)` in error messages. -/
def tokenDebug : Token → String
  | .Identifier s => "Identifier(" ++ strDebug s ++ ")"
  | .Keyword s => "Keyword(" ++ strDebug s ++ ")"
  | .Operator s => "Operator(" ++ strDebug s ++ ")"
  | .Number s => "Number(" ++ strDebug s ++ ")"
  | .Comma => "Comma"
  | .Whitespace => "Whitespace"
  | .Eq => "Eq"
  | .Neq => "Neq"
  | .Lt => "Lt"
  | .Gt => "Gt"
  | .LtEq => "LtEq"
  | .GtEq => "GtEq"
  | .Plus => "Plus"
  | .Minus => "Minus"
  | .Mult => "Mult"
  | .Div => "Div"
  | .LParen => "LParen"
  | .RParen => "RParen"

/-- Rust's `derive(Debug)` rendering of an `Option<Token>`. -/
def optTokenDebug : Option Token → String
  | none => "None"
  | some t => "Some(" ++ tokenDebug t ++ ")"

/-- `Parser::peek_token`: the token at the cursor, if any (the cursor does
not move). -/
def peekToken (ts : List Token) (i : Nat) : Option Token := ts.get? i

/-- `Parser::next_token`: the token at the cursor and the advanced cursor;
`none` at end of input (cursor unchanged). -/
def nextTok (ts : List Token) (i : Nat) : Option (Token × Nat) :=
  match ts.get? i with
  | some t => some (t, i + 1)
  | none => none

/-- A bare `self.next_token();` whose result the source ignores ("skip
lparen" / "skip rparen"): the cursor advances only when a token is there. -/
def skipTok (ts : List Token) (i : Nat) : Nat :=
  if i < ts.length then i + 1 else i

/-- `Parser::prev_token`: the token before the cursor, if the cursor is
positive (used only in error messages). -/
def prevTok (ts : List Token) (i : Nat) : Option Token :=
  if i > 0 then ts.get? (i - 1) else none

/-- ASCII lower-casing of one character, as in Rust's
`eq_ignore_ascii_case`. -/
def asciiLower (c : Char) : Char :=
  if 'A' ≤ c && c ≤ 'Z' then Char.ofNat (c.toNat + 32) else c

/-- ASCII upper-casing of one character, as in Rust's `to_uppercase` on the
ASCII keyword texts the parser compares. -/
def asciiUpper (c : Char) : Char :=
  if 'a' ≤ c && c ≤ 'z' then Char.ofNat (c.toNat - 32) else c

/-- Rust's `str::eq_ignore_ascii_case`. -/
def eqIgnoreAsciiCase (a b : String) : Bool :=
  a.data.map asciiLower == b.data.map asciiLower

/-- Rust's `String::to_uppercase` restricted to ASCII, as the source applies
it to keyword texts. -/
def toUpperStr (s : String) : String := String.mk (s.data.map asciiUpper)

/-- `Parser::parse_keyword`: consume the next token only when it is a
`Keyword` whose text matches `expected` case-insensitively; the returned
flag says whether it matched, the returned index is the new cursor. -/
def parse_keyword (expected : String) (ts : List Token) (i : Nat) : Bool × Nat :=
  match peekToken ts i with
  | some (.Keyword k) =>
    if eqIgnoreAsciiCase expected k then (true, i + 1) else (false, i)
  | _ => (false, i)

/-- The `for` loop of `Parser::parse_keywords`: `saved` is the cursor saved
on entry, restored on the first mismatch. -/
def parseKeywordsGo (kws : List String) (ts : List Token) (i saved : Nat) : Bool × Nat :=
  match kws with
  | [] => (true, i)
  | k :: rest =>
    let r := parse_keyword k ts i
    if r.1 then parseKeywordsGo rest ts r.2 saved
    else (false, saved)

/-- `Parser::parse_keywords`: match a run of keywords; on any mismatch the
cursor is restored to its value on entry. -/
def parse_keywords (kws : List String) (ts : List Token) (i : Nat) : Bool × Nat :=
  parseKeywordsGo kws ts i i

/-- `Parser::consume_token`: consume the next token when it equals
`expected` structurally, else fail with the expected/actual message. -/
def consume_token (expected : Token) (ts : List Token) (i : Nat) :
    Except ParserError Nat :=
  match nextTok ts i with
  | some (t, j) =>
    if t = expected then .ok j
    else .error (.ParserError ("expected token " ++ tokenDebug expected ++
      " but was " ++ optTokenDebug (prevTok ts j)))
  | none => .error (.ParserError ("expected token " ++ tokenDebug expected ++
      " but was " ++ optTokenDebug (prevTok ts i)))

/-- The numeric value of an ASCII digit. -/
def digitVal (c : Char) : Nat := c.toNat - '0'.toNat

/-- The natural number denoted by a digit string. -/
def natOfDigits (cs : List Char) : Nat :=
  cs.foldl (fun a c => a * 10 + digitVal c) 0

/-- Rust's `str::parse::<i64>()`: an optional sign, at least one digit,
nothing else, and the value must fit in a signed 64-bit integer. -/
def parseI64 (s : String) : Option Int :=
  match s.data with
  | [] => none
  | c :: rest =>
    if c = '+' || c = '-' then
      if !rest.isEmpty && rest.all isDigitChar then
        let v : Int := if c = '-' then -(Int.ofNat (natOfDigits rest))
                       else Int.ofNat (natOfDigits rest)
        if -(2 ^ 63) ≤ v ∧ v ≤ 2 ^ 63 - 1 then some v else none
      else none
    else
      if (c :: rest).all isDigitChar then
        let v : Int := Int.ofNat (natOfDigits (c :: rest))
        if v ≤ 2 ^ 63 - 1 then some v else none
      else none

/-- `Parser::parse_literal_int`: the next token must be a `Number` whose
text parses as an `i64`. -/
def parse_literal_int (ts : List Token) (i : Nat) : Except ParserError (Int × Nat) :=
  match nextTok ts i with
  | some (.Number s, j) =>
    match parseI64 s with
    | some v => .ok (v, j)
    | none => .error (.ParserError ("Could not parse '" ++ s ++ "' as i64"))
  | _ => .error (.ParserError "Expected literal int")

/-- `Parser::parse_data_type`: DOUBLE, or VARCHAR with a parenthesized
integer length (the `n as usize` cast wraps modulo `2^64`). -/
def parse_data_type (ts : List Token) (i : Nat) : Except ParserError (SQLType × Nat) :=
  match nextTok ts i with
  | some (.Keyword k, j) =>
    if toUpperStr k = "DOUBLE" then .ok (.Double, j)
    else if toUpperStr k = "VARCHAR" then
      match consume_token .LParen ts j with
      | .error e => .error e
      | .ok j₁ =>
        match parse_literal_int ts j₁ with
        | .error e => .error e
        | .ok (n, j₂) =>
          match consume_token .RParen ts j₂ with
          | .error e => .error e
          | .ok j₃ => .ok (.Varchar (Int.toNat (n % (2 ^ 64))), j₃)
    else .error (.ParserError "Invalid data type")
  | _ => .error (.ParserError "Invalid data type")

/-- `Parser::parse_limit`: keyword ALL leaves the limit unset, otherwise
one integer literal becomes the limit node. -/
def parse_limit (ts : List Token) (i : Nat) :
    Except ParserError (Option ASTNode × Nat) :=
  let r := parse_keyword "ALL" ts i
  if r.1 then .ok (none, r.2)
  else
    match parse_literal_int ts r.2 with
    | .error e => .error e
    | .ok (n, j) => .ok (some (.SQLLiteralInt n), j)

/-- `Parser::get_precedence`: comparison operators bind at 20, additive at
30, multiplicative at 40, everything else at 0. -/
def get_precedence (t : Token) : Nat :=
  match t with
  | .Eq | .Lt | .LtEq | .Neq | .Gt | .GtEq => 20
  | .Plus | .Minus => 30
  | .Mult | .Div => 40
  | _ => 0

/-- `Parser::get_next_precedence`: precedence of the token at the cursor,
0 at end of input. -/
def get_next_precedence (ts : List Token) (i : Nat) : Nat :=
  match ts.get? i with
  | some t => get_precedence t
  | none => 0

/-- `Parser::to_sql_operator`: map the five handled comparison tokens to
SQL operators; everything else is unsupported. -/
def to_sql_operator (t : Token) : Except ParserError SQLOperator :=
  match t with
  | .Eq => .ok .EQ
  | .Lt => .ok .LT
  | .LtEq => .ok .LTEQ
  | .Gt => .ok .GT
  | .GtEq => .ok .GTEQ
  | _ => .error (.ParserError ("Unsupported operator " ++ tokenDebug t))

/-- Sequencing of fueled parser results: propagate fuel exhaustion and
errors, continue on success. -/
def obind (x : Option (Except ParserError α))
    (f : α → Option (Except ParserError β)) : Option (Except ParserError β) :=
  match x with
  | none => none
  | some (.error e) => some (.error e)
  | some (.ok a) => f a

/-- The optional NOT NULL / NULL consumption after a column's data type
(`if self.parse_keywords(vec!["NOT", "NULL"]) {} else if
self.parse_keyword("NULL") {}` - both bodies are empty TODOs, so only the
cursor moves): the cursor after the attempt. -/
def columnNullIndex (ts : List Token) (i : Nat) : Nat :=
  let r := parse_keywords ["NOT", "NULL"] ts i
  if r.1 then r.2 else (parse_keyword "NULL" ts r.2).2

/-- The column-definition `loop` of `Parser::parse_create`: an identifier,
a data type, an optional NOT NULL / NULL, then a comma (continue) or a
closing parenthesis (stop).  Every pushed column has `allow_null := true`,
as in the source. -/
def parseColumnLoop : Nat → List Token → Nat → List SQLColumnDef →
    Option (Except ParserError (List SQLColumnDef × Nat))
  | 0, _, _, _ => none
  | fuel + 1, ts, i, acc =>
    match nextTok ts i with
    | some (.Identifier column_name, i₁) =>
      match parse_data_type ts i₁ with
      | .error _ =>
        some (.error (.ParserError "Error parsing data type in column definition"))
      | .ok (data_type, i₂) =>
        match peekToken ts (columnNullIndex ts i₂) with
        | some .Comma =>
          parseColumnLoop fuel ts (columnNullIndex ts i₂ + 1)
            (acc ++ [⟨column_name, data_type, true⟩])
        | some .RParen =>
          some (.ok (acc ++ [⟨column_name, data_type, true⟩], columnNullIndex ts i₂ + 1))
        | _ => some (.error (.ParserError "Expected ',' or ')' after column definition"))
    | _ => some (.error (.ParserError "Error parsing column name"))

/-- `Parser::parse_create`: the keyword sequence EXTERNAL TABLE, a table
name, `(`, then the column-definition loop. -/
def parse_create (fuel : Nat) (ts : List Token) (i : Nat) :
    Option (Except ParserError (ASTNode × Nat)) :=
  let r := parse_keywords ["EXTERNAL", "TABLE"] ts i
  if r.1 then
    match nextTok ts r.2 with
    | some (.Identifier id, i₂) =>
      match consume_token .LParen ts i₂ with
      | .error e => some (.error e)
      | .ok i₃ =>
        obind (parseColumnLoop fuel ts i₃ []) (fun cols =>
          some (.ok (.SQLCreateTable id cols.1, cols.2)))
    | some (_, i₂) =>
      some (.error (.ParserError ("Unexpected token after CREATE EXTERNAL TABLE: " ++
        optTokenDebug (peekToken ts i₂))))
    | none =>
      some (.error (.ParserError ("Unexpected token after CREATE EXTERNAL TABLE: " ++
        optTokenDebug (peekToken ts r.2))))
  else
    some (.error (.ParserError ("Unexpected token after CREATE: " ++
      optTokenDebug (peekToken ts r.2))))

/-- The LIMIT clause of `Parser::parse_select`: `if self.parse_keyword("LIMIT")
{ self.parse_limit()? } else { None }`. -/
def parseLimitClause (ts : List Token) (i : Nat) :
    Option (Except ParserError (Option ASTNode × Nat)) :=
  let r := parse_keyword "LIMIT" ts i
  if r.1 then
    match parse_limit ts r.2 with
    | .error e => some (.error e)
    | .ok lj => some (.ok lj)
  else some (.ok (none, r.2))

mutual

/-- `Parser::parse_expr`: a prefix production, then the precedence-climbing
loop. -/
def parse_expr : Nat → Nat → List Token → Nat →
    Option (Except ParserError (ASTNode × Nat))
  | 0, _, _, _ => none
  | fuel + 1, precedence, ts, i =>
    obind (parsePrefix fuel ts i) (fun r =>
      parseExprLoop fuel precedence r.1 ts r.2)
termination_by structural fuel _ _ _ => fuel

/-- The `loop` of `Parser::parse_expr`: while the next token's precedence
strictly exceeds the floor, consume an infix operator and fold
left-associatively. -/
def parseExprLoop : Nat → Nat → ASTNode → List Token → Nat →
    Option (Except ParserError (ASTNode × Nat))
  | 0, _, _, _, _ => none
  | fuel + 1, precedence, expr, ts, i =>
    let next_precedence := get_next_precedence ts i
    if precedence ≥ next_precedence then some (.ok (expr, i))
    else
      obind (parseInfix fuel expr next_precedence ts i) (fun r =>
        match r.1 with
        | some infix_expr => parseExprLoop fuel precedence infix_expr ts r.2
        | none => parseExprLoop fuel precedence expr ts r.2)
termination_by structural fuel _ _ _ _ => fuel

/-- `Parser::parse_prefix`: dispatch on the next token - SELECT, CREATE,
identifier (plain or function call), or number. -/
def parsePrefix : Nat → List Token → Nat →
    Option (Except ParserError (ASTNode × Nat))
  | 0, _, _ => none
  | fuel + 1, ts, i =>
    match nextTok ts i with
    | none => some (.error (.ParserError "Prefix parser expected a keyword but hit EOF"))
    | some (t, i₁) =>
      match t with
      | .Keyword k =>
        if toUpperStr k = "SELECT" then parse_select fuel ts i₁
        else if toUpperStr k = "CREATE" then parse_create fuel ts i₁
        else some (.error (.ParserError ("No prefix parser for keyword " ++ k)))
      | .Identifier id =>
        match peekToken ts i₁ with
        | some .LParen =>
          obind (parse_expr_list fuel ts (skipTok ts i₁)) (fun args =>
            some (.ok (.SQLFunction id args.1, skipTok ts args.2)))
        | _ => some (.ok (.SQLIdentifier id, i₁))
      | .Number n =>
        match parseI64 n with
        | some v => some (.ok (.SQLLiteralInt v, i₁))
        | none => some (.error (.ParserError ("Could not parse '" ++ n ++ "' as i64")))
      | _ => some (.error (.ParserError ("Prefix parser expected a keyword but found " ++
          tokenDebug t)))
termination_by structural fuel _ _ => fuel

/-- `Parser::parse_infix`: only the five comparison tokens have an infix
production; end of input yields `none` (the loop then rechecks the
precedence), anything else is a parser error. -/
def parseInfix : Nat → ASTNode → Nat → List Token → Nat →
    Option (Except ParserError (Option ASTNode × Nat))
  | 0, _, _, _, _ => none
  | fuel + 1, expr, precedence, ts, i =>
    match nextTok ts i with
    | none => some (.ok (none, i))
    | some (tok, i₁) =>
      match tok with
      | .Eq | .Gt | .GtEq | .Lt | .LtEq =>
        match to_sql_operator tok with
        | .error e => some (.error e)
        | .ok op =>
          obind (parse_expr fuel precedence ts i₁) (fun r =>
            some (.ok (some (.SQLBinaryExpr expr op r.1), r.2)))
      | _ => some (.error (.ParserError ("No infix parser for token " ++ tokenDebug tok)))
termination_by structural fuel _ _ _ _ => fuel

/-- An optional clause of `Parser::parse_select`: `if self.parse_keyword(kw)
{ Some(Box::new(self.parse_expr(0)?)) } else { None }`, shared by the FROM
(relation) and WHERE (selection) clauses. -/
def parseClause : Nat → String → List Token → Nat →
    Option (Except ParserError (Option ASTNode × Nat))
  | 0, _, _, _ => none
  | fuel + 1, kw, ts, i =>
    let r := parse_keyword kw ts i
    if r.1 then
      obind (parse_expr fuel 0 ts r.2) (fun e =>
        some (.ok (some e.1, e.2)))
    else some (.ok (none, r.2))
termination_by structural fuel _ _ _ => fuel

/-- `Parser::parse_select`: projection list, optional FROM, WHERE and
LIMIT clauses, then any leftover token is a hard error. -/
def parse_select : Nat → List Token → Nat →
    Option (Except ParserError (ASTNode × Nat))
  | 0, _, _ => none
  | fuel + 1, ts, i =>
    obind (parse_expr_list fuel ts i) (fun proj =>
      obind (parseClause fuel "FROM" ts proj.2) (fun rel =>
        obind (parseClause fuel "WHERE" ts rel.2) (fun sel =>
          obind (parseLimitClause ts sel.2) (fun lim =>
            match peekToken ts lim.2 with
            | some next_token =>
              some (.error (.ParserError ("Unexpected token at end of SELECT: " ++
                tokenDebug next_token)))
            | none =>
              some (.ok (.SQLSelect proj.1 sel.1 rel.1 lim.1 none, lim.2))))))
termination_by structural fuel _ _ => fuel

/-- `Parser::helper`: one expression of a comma-separated list, and whether
a comma (consumed) announced another element. -/
def helper : Nat → List Token → Nat →
    Option (Except ParserError ((ASTNode × Bool) × Nat))
  | 0, _, _ => none
  | fuel + 1, ts, i =>
    obind (parse_expr fuel 0 ts i) (fun r =>
      match peekToken ts r.2 with
      | some .Comma => some (.ok ((r.1, true), r.2 + 1))
      | _ => some (.ok ((r.1, false), r.2)))
termination_by structural fuel _ _ => fuel

/-- `Parser::parse_expr_list`: one or more expressions separated by
commas. -/
def parse_expr_list : Nat → List Token → Nat →
    Option (Except ParserError (List ASTNode × Nat))
  | 0, _, _ => none
  | fuel + 1, ts, i =>
    obind (helper fuel ts i) (fun r =>
      if r.1.2 then
        obind (parse_expr_list fuel ts r.2) (fun rest =>
          some (.ok (r.1.1 :: rest.1, rest.2)))
      else some (.ok ([r.1.1], r.2)))
termination_by structural fuel _ _ => fuel

end

/-- `Parser::parse`: the whole token sequence as one expression starting
with minimum precedence 0. -/
def parse (fuel : Nat) (ts : List Token) : Option (Except ParserError (ASTNode × Nat)) :=
  parse_expr fuel 0 ts 0

/-- Fuel that is ample for the parser on the inputs considered here: the
call depth grows by a bounded amount per consumed token. -/
def parseFuel (ts : List Token) : Nat := 8 * ts.length + 8

/-- `Parser::parse_sql`: tokenize, then parse; `none` is fuel exhaustion
(in particular, a tokenizer run of the source that never terminates). -/
def parse_sql (sql : String) : Option (Except ParserError ASTNode) :=
  match tokenize sql with
  | none => none
  | some (.error e) => some (.error e)
  | some (.ok ts) =>
    match parse (parseFuel ts) ts with
    | none => none
    | some (.error e) => some (.error e)
    | some (.ok (ast, _)) => some (.ok ast)

/-- Accumulator form of `chunks`: `cur` is the current (reversed) run of
non-whitespace characters. -/
def chunksAux : List Char → List Char → List (List Char)
  | [], cur => if cur.isEmpty then [] else [cur.reverse]
  | c :: rest, cur =>
    if isWsChar c then
      if cur.isEmpty then chunksAux rest [] else cur.reverse :: chunksAux rest []
    else chunksAux rest (c :: cur)

/-- The maximal non-whitespace runs (the lexeme chunks) of a character
list: two inputs have equal `chunks` exactly when they carry the same
non-whitespace text split at the same places, with arbitrary whitespace
around and between the runs. -/
def chunks (cs : List Char) : List (List Char) := chunksAux cs []

/-- A list that is empty or starts with a whitespace character (the shape
of what follows a maximal non-whitespace run). -/
def WsBounded (cs : List Char) : Prop := ∀ h, cs.head? = some h → isWsChar h = true

/-- A terminating run of the source's tokenize loop on `cs`, producing the
raw token list `raw`; `ts` is the whitespace-filtered result. -/
def TokenizeOk (cs : List Char) (ts : List Token) : Prop :=
  ∃ fuel raw, tokLoop fuel cs = some (.ok raw) ∧ ts = raw.filter notWhitespace

/-- A tokenizer step that leaves the input unchanged starves the loop: the
loop returns `none` (never finishes) at every fuel. -/
theorem tokLoop_stall {cs : List Char} {t : Token}
    (h : nextToken cs = .ok (some (t, cs))) : ∀ fuel, tokLoop fuel cs = none := by
  intro fuel
  induction fuel with
  | zero => rfl
  | succ n ih => simp [tokLoop, h, ih]

/-- C2: the claim that `parse_sql` terminates on every input - in
particular on inputs containing `@` - fails on the code: on the input
`"@"` the identifier branch of `next_token` starts (since `@` is an
identifier-start character) but the inner loop never consumes the `@`, so
the tokenizer emits `Identifier("")` without advancing and the tokenize
loop runs forever: at every fuel the loop is still unfinished (`none`),
hence `tokenize` and `parse_sql` never complete on `"@"`. -/
theorem c2_tokenizer_diverges_on_at :
    nextToken ['@'] = .ok (some (.Identifier "", ['@'])) ∧
    (∀ fuel, tokLoop fuel ['@'] = none) ∧
    tokenize "@" = none ∧
    parse_sql "@" = none := by
  refine ⟨rfl, tokLoop_stall rfl, rfl, rfl⟩

/-- C4: precedence climbing is left-associative on equal-precedence
comparison chains: for all identifiers `a`, `b`, `c`, the token sequence of
`a = b < c` parses to a binary node whose left child is `(a = b)` and whose
right child is `c` (all five tokens consumed). -/
theorem c4_comparison_chain_left_assoc (a b c : String) :
    parse_expr 16 0 [Token.Identifier a, Token.Eq, Token.Identifier b,
      Token.Lt, Token.Identifier c] 0 =
    some (.ok (.SQLBinaryExpr (.SQLBinaryExpr (.SQLIdentifier a) .EQ (.SQLIdentifier b))
      .LT (.SQLIdentifier c), 5)) := rfl

/-- C9: the empty query tokenizes to the empty token sequence, and parsing
an empty token sequence fails with the ParserError that reports the prefix
parser hit end of input. -/
theorem c9_empty_query :
    tokenize "" = some (.ok ([] : List Token)) ∧
    (∀ fuel, parse (fuel + 2) [] =
      some (.error (.ParserError "Prefix parser expected a keyword but hit EOF"))) ∧
    parse_sql "" =
      some (.error (.ParserError "Prefix parser expected a keyword but hit EOF")) :=
  ⟨rfl, fun _ => rfl, rfl⟩

/-- C10: trailing tokens are rejected only after a SELECT statement: a
complete CREATE EXTERNAL TABLE statement followed by an extra token parses
successfully (the extra token is silently ignored), while the same trailing
token after a SELECT statement is a hard error. -/
theorem c10_trailing_after_create_ignored :
    parse_sql "CREATE EXTERNAL TABLE t (a DOUBLE) extra" =
      some (.ok (.SQLCreateTable "t" [⟨"a", .Double, true⟩])) ∧
    parse_sql "SELECT 1 extra" =
      some (.error (.ParserError "Unexpected token at end of SELECT: Identifier(\"extra\")")) :=
  ⟨rfl, rfl⟩

/-- `next_token` on a present token: the token at the cursor, cursor
advanced by one. -/
theorem nextTok_of_get {ts : List Token} {i : Nat} {t : Token}
    (h : ts.get? i = some t) : nextTok ts i = some (t, i + 1) := by
  unfold nextTok
  rw [h]

/-- C3: a token other than the five handled comparisons reaching infix
position is a ParserError: `parse_infix` rejects `Neq`, `Plus`, `Minus`,
`Mult` and `Div` (the tokens whose precedence exceeds 0), and consequently
`SELECT 1+2` and `SELECT 1<>2` tokenize but fail to parse. -/
theorem c3_no_infix_for_other_tokens :
    (∀ fuel ts i expr precedence tok, ts.get? i = some tok →
      (tok = Token.Neq ∨ tok = Token.Plus ∨ tok = Token.Minus ∨
        tok = Token.Mult ∨ tok = Token.Div) →
      parseInfix (fuel + 1) expr precedence ts i =
        some (.error (.ParserError ("No infix parser for token " ++ tokenDebug tok)))) ∧
    tokenize "SELECT 1+2" =
      some (.ok [.Keyword "SELECT", .Number "1", .Plus, .Number "2"]) ∧
    parse_sql "SELECT 1+2" =
      some (.error (.ParserError "No infix parser for token Plus")) ∧
    tokenize "SELECT 1<>2" =
      some (.ok [.Keyword "SELECT", .Number "1", .Neq, .Number "2"]) ∧
    parse_sql "SELECT 1<>2" =
      some (.error (.ParserError "No infix parser for token Neq")) := by
  refine ⟨?_, rfl, rfl, rfl, rfl⟩
  intro fuel ts i expr precedence tok hget htok
  have hnext : nextTok ts i = some (tok, i + 1) := nextTok_of_get hget
  rcases htok with h | h | h | h | h <;> subst h <;> simp [parseInfix, hnext]

/-- Witness for C3's universal part at a concrete input: a lone `Plus`
token in infix position is rejected. -/
theorem c3_no_infix_witness :
    parseInfix 1 (ASTNode.SQLLiteralInt 1) 30 [Token.Plus] 0 =
      some (.error (.ParserError ("No infix parser for token " ++ tokenDebug Token.Plus))) :=
  c3_no_infix_for_other_tokens.1 0 [Token.Plus] 0 (ASTNode.SQLLiteralInt 1) 30
    Token.Plus rfl (Or.inr (Or.inl rfl))

/-- C5: the LIMIT clause: keyword ALL leaves the limit unset, otherwise
exactly one integer literal is parsed as the limit; end to end, the
spec's two example queries yield projection length 3 with limit absent
(LIMIT ALL) and limit `5` (LIMIT 5). -/
theorem c5_limit_clause :
    parse_sql "SELECT id, fname, lname FROM customer WHERE id = 1 LIMIT ALL" =
      some (.ok (.SQLSelect
        [.SQLIdentifier "id", .SQLIdentifier "fname", .SQLIdentifier "lname"]
        (some (.SQLBinaryExpr (.SQLIdentifier "id") .EQ (.SQLLiteralInt 1)))
        (some (.SQLIdentifier "customer")) none none)) ∧
    parse_sql "SELECT id, fname, lname FROM customer WHERE id = 1 LIMIT 5" =
      some (.ok (.SQLSelect
        [.SQLIdentifier "id", .SQLIdentifier "fname", .SQLIdentifier "lname"]
        (some (.SQLBinaryExpr (.SQLIdentifier "id") .EQ (.SQLLiteralInt 1)))
        (some (.SQLIdentifier "customer")) (some (.SQLLiteralInt 5)) none)) ∧
    (∀ ts i, ts.get? i = some (Token.Keyword "ALL") →
      parse_limit ts i = .ok (none, i + 1)) ∧
    (∀ ts i s v, ts.get? i = some (Token.Number s) → parseI64 s = some v →
      parse_limit ts i = .ok (some (.SQLLiteralInt v), i + 1)) := by
  refine ⟨rfl, rfl, ?_, ?_⟩
  · intro ts i h
    have hk : parse_keyword "ALL" ts i = (true, i + 1) := by
      unfold parse_keyword peekToken
      rw [h]
      rfl
    simp [parse_limit, hk]
  · intro ts i s v hget hparse
    have hk : parse_keyword "ALL" ts i = (false, i) := by
      unfold parse_keyword peekToken
      rw [hget]
    have hlit : parse_literal_int ts i = .ok (v, i + 1) := by
      simp [parse_literal_int, nextTok_of_get hget, hparse]
    simp [parse_limit, hk, hlit]

/-- Witness for C5's universal parts at concrete inputs. -/
theorem c5_limit_witness :
    parse_limit [Token.Keyword "ALL"] 0 = .ok (none, 1) ∧
    parse_limit [Token.Number "5"] 0 = .ok (some (.SQLLiteralInt 5), 1) :=
  ⟨c5_limit_clause.2.2.1 [Token.Keyword "ALL"] 0 rfl,
   c5_limit_clause.2.2.2 [Token.Number "5"] 0 "5" 5 rfl rfl⟩

/-- `parse_keyword` either consumes exactly one token (a match) or leaves
the cursor where it was (a mismatch). -/
theorem parse_keyword_spec (k : String) (ts : List Token) (i : Nat) :
    parse_keyword k ts i = (true, i + 1) ∨ parse_keyword k ts i = (false, i) := by
  unfold parse_keyword
  rcases hp : peekToken ts i with _ | t
  · right; rfl
  · cases t <;> try (right; rfl)
    rename_i s
    by_cases h : eqIgnoreAsciiCase k s
    · left; simp [h]
    · right; simp [h]

/-- The keyword-sequence loop: on any mismatch the result is `false` with
the saved cursor; when all keywords match the cursor has advanced by
exactly their number. -/
theorem parseKeywordsGo_spec (kws : List String) (ts : List Token) :
    ∀ i saved, parseKeywordsGo kws ts i saved = (false, saved) ∨
      parseKeywordsGo kws ts i saved = (true, i + kws.length) := by
  induction kws with
  | nil => intro i saved; right; simp [parseKeywordsGo]
  | cons k rest ih =>
    intro i saved
    rcases parse_keyword_spec k ts i with h | h
    · rcases ih (i + 1) saved with h2 | h2
      · left; simp [parseKeywordsGo, h, h2]
      · right; simp [parseKeywordsGo, h, h2]; omega
    · left; simp [parseKeywordsGo, h]

/-- C6: `parse_keywords` is atomic over the cursor: for every token
sequence, cursor position and keyword sequence it either fails and
restores the cursor to its pre-call value, or succeeds with the cursor
advanced by exactly the number of keywords. -/
theorem c6_parse_keywords_atomic (ts : List Token) (i : Nat) (kws : List String) :
    parse_keywords kws ts i = (false, i) ∨
      parse_keywords kws ts i = (true, i + kws.length) :=
  parseKeywordsGo_spec kws ts i i

/-- Every column the column-definition loop returns has its nullability
flag `true`, provided the accumulator already satisfies this (the loop
pushes only columns with `allow_null := true`). -/
theorem parseColumnLoop_allow_null : ∀ fuel ts i acc cols j,
    (∀ c ∈ acc, c.allow_null = true) →
    parseColumnLoop fuel ts i acc = some (.ok (cols, j)) →
    ∀ c ∈ cols, c.allow_null = true := by
  intro fuel
  induction fuel with
  | zero =>
    intro ts i acc cols j _ h
    simp [parseColumnLoop] at h
  | succ n ih =>
    intro ts i acc cols j hacc h
    rw [parseColumnLoop] at h
    split at h
    · rename_i column_name i₁ heq
      split at h
      · simp at h
      · rename_i data_type i₂ heq2
        split at h
        · -- comma: recurse with the new column appended
          refine ih ts _ _ cols j ?_ h
          intro c hc
          rcases List.mem_append.mp hc with hc | hc
          · exact hacc c hc
          · simp at hc
            subst hc
            rfl
        · -- rparen: the final column list
          rename_i heq3
          rw [Option.some_inj] at h
          injection h with h
          injection h with h1 h2
          subst h1
          intro c hc
          rcases List.mem_append.mp hc with hc | hc
          · exact hacc c hc
          · simp at hc
            subst hc
            rfl
        · simp at h
    · simp at h

/-- C7: every column definition of a successfully parsed CREATE TABLE node
has its nullability flag stored as `true`, whatever the source text said
after the data type. -/
theorem c7_columns_always_nullable (fuel : Nat) (ts : List Token) (i : Nat)
    (name : String) (cols : List SQLColumnDef) (j : Nat)
    (h : parse_create fuel ts i = some (.ok (.SQLCreateTable name cols, j))) :
    ∀ c ∈ cols, c.allow_null = true := by
  unfold parse_create at h
  simp only [] at h
  split at h
  · split at h
    · rename_i id i₂ heq
      split at h
      · simp [obind] at h
      · rename_i i₃ heq2
        unfold obind at h
        split at h
        · simp at h
        · simp at h
        · rename_i cols' heq3
          rw [Option.some_inj] at h
          injection h with h
          injection h with h1 h2
          injection h1 with hname hcols
          subst hcols
          exact parseColumnLoop_allow_null fuel ts i₃ [] cols'.1 cols'.2
            (by intro c hc; simp at hc) (by rw [heq3])
    · simp at h
    · simp at h
  · simp at h

/-- Witness for C7 at the spec's `uk_cities` example (the tokens after the
consumed CREATE keyword): the first column of the parsed node allows
null although the source text said NOT NULL. -/
theorem c7_nullable_witness :
    SQLColumnDef.allow_null ⟨"name", .Varchar 100, true⟩ = true :=
  c7_columns_always_nullable 8
    [.Keyword "EXTERNAL", .Keyword "TABLE", .Identifier "uk_cities", .LParen,
     .Identifier "name", .Keyword "VARCHAR", .LParen, .Number "100", .RParen,
     .Keyword "NOT", .Keyword "NULL", .Comma,
     .Identifier "lat", .Keyword "DOUBLE", .Keyword "NOT", .Keyword "NULL", .Comma,
     .Identifier "lng", .Keyword "DOUBLE", .Keyword "NOT", .Keyword "NULL", .RParen]
    0 "uk_cities"
    [⟨"name", .Varchar 100, true⟩, ⟨"lat", .Double, true⟩, ⟨"lng", .Double, true⟩]
    22 rfl ⟨"name", .Varchar 100, true⟩ (by simp)

/-- `next_token` succeeds exactly on the token at the cursor and advances
by one. -/
theorem nextTok_some {ts : List Token} {i : Nat} {t : Token} {j : Nat}
    (h : nextTok ts i = some (t, j)) : ts.get? i = some t ∧ j = i + 1 := by
  unfold nextTok at h
  split at h
  · rename_i t' hg
    simp only [Option.some_inj, Prod.mk.injEq] at h
    exact ⟨h.1 ▸ hg, h.2.symm⟩
  · simp at h

/-- A successful `peek_token` means the cursor is inside the sequence. -/
theorem peekToken_some_lt {ts : List Token} {i : Nat} {t : Token}
    (h : peekToken ts i = some t) : i < ts.length := by
  unfold peekToken at h
  exact (List.get?_eq_some.mp h).1

/-- A successful `consume_token` advances the cursor by exactly one. -/
theorem consume_token_ok {tok : Token} {ts : List Token} {i j : Nat}
    (h : consume_token tok ts i = .ok j) : j = i + 1 := by
  unfold consume_token at h
  split at h
  · rename_i t j' hnt
    split at h
    · injection h with h
      exact h ▸ (nextTok_some hnt).2
    · simp at h
  · simp at h

/-- A successful `parse_literal_int` advances the cursor by exactly one. -/
theorem parse_literal_int_ok {ts : List Token} {i : Nat} {v : Int} {j : Nat}
    (h : parse_literal_int ts i = .ok (v, j)) : j = i + 1 := by
  unfold parse_literal_int at h
  split at h
  · rename_i s j' hnt
    split at h
    · injection h with h
      simp only [Prod.mk.injEq] at h
      exact h.2 ▸ (nextTok_some hnt).2
    · simp at h
  · simp at h

/-- A successful `parse_data_type` advances the cursor by at least one. -/
theorem parse_data_type_le {ts : List Token} {i : Nat} {dt : SQLType} {j : Nat}
    (h : parse_data_type ts i = .ok (dt, j)) : i + 1 ≤ j := by
  unfold parse_data_type at h
  split at h
  · rename_i k j' hnt
    have hj' := (nextTok_some hnt).2
    split at h
    · injection h with h
      simp only [Prod.mk.injEq] at h
      obtain ⟨-, h2⟩ := h
      omega
    · split at h
      · split at h
        · simp at h
        · rename_i j₁ hc
          split at h
          · simp at h
          · rename_i n j₂ hl
            split at h
            · simp at h
            · rename_i j₃ hc2
              injection h with h
              simp only [Prod.mk.injEq] at h
              have h1 := consume_token_ok hc
              have h2 := parse_literal_int_ok hl
              have h3 := consume_token_ok hc2
              omega
      · simp at h
  · simp at h

/-- `parse_keyword` never moves the cursor backwards. -/
theorem parse_keyword_snd_ge (k : String) (ts : List Token) (i : Nat) :
    i ≤ (parse_keyword k ts i).2 := by
  rcases parse_keyword_spec k ts i with h | h <;> simp [h]

/-- `parse_keywords` never moves the cursor backwards. -/
theorem parse_keywords_snd_ge (kws : List String) (ts : List Token) (i : Nat) :
    i ≤ (parse_keywords kws ts i).2 := by
  rcases parseKeywordsGo_spec kws ts i i with h | h <;> simp [parse_keywords, h]

/-- The NOT NULL / NULL attempt never moves the cursor backwards. -/
theorem columnNullIndex_ge (ts : List Token) (i : Nat) :
    i ≤ columnNullIndex ts i := by
  have h1 := parse_keywords_snd_ge ["NOT", "NULL"] ts i
  have h2 := parse_keyword_snd_ge "NULL" ts (parse_keywords ["NOT", "NULL"] ts i).2
  have hz : columnNullIndex ts i =
      if (parse_keywords ["NOT", "NULL"] ts i).1 then
        (parse_keywords ["NOT", "NULL"] ts i).2
      else (parse_keyword "NULL" ts (parse_keywords ["NOT", "NULL"] ts i).2).2 := rfl
  rw [hz]
  split <;> omega

/-- When no `RParen` token remains at or after the cursor, the
column-definition loop can never take its exit branch: with enough fuel it
always stops with a ParserError (the source's loop `break`s only on a
closing parenthesis). -/
theorem parseColumnLoop_no_rparen : ∀ fuel ts i acc,
    i ≤ ts.length → ts.length + 1 ≤ fuel + i →
    (∀ j, i ≤ j → ts.get? j ≠ some Token.RParen) →
    ∃ e, parseColumnLoop fuel ts i acc = some (.error e) := by
  intro fuel
  induction fuel with
  | zero =>
    intro ts i acc h1 h2 _
    omega
  | succ n ih =>
    intro ts i acc hle hfuel hno
    rcases hnt : nextTok ts i with _ | ⟨t, i₁⟩
    · exact ⟨.ParserError "Error parsing column name",
        by simp only [parseColumnLoop, hnt]⟩
    · cases t
      case Identifier column_name =>
        rcases hdt : parse_data_type ts i₁ with e | ⟨data_type, i₂⟩
        · exact ⟨.ParserError "Error parsing data type in column definition",
            by simp only [parseColumnLoop, hnt, hdt]⟩
        · have hi1 : i₁ = i + 1 := (nextTok_some hnt).2
          have hi2 : i₁ + 1 ≤ i₂ := parse_data_type_le hdt
          have hi4 : i₂ ≤ columnNullIndex ts i₂ := columnNullIndex_ge ts i₂
          rcases hpk : peekToken ts (columnNullIndex ts i₂) with _ | pt
          · exact ⟨.ParserError "Expected ',' or ')' after column definition",
              by simp only [parseColumnLoop, hnt, hdt, hpk]⟩
          · have hlt : columnNullIndex ts i₂ < ts.length := peekToken_some_lt hpk
            cases pt
            case Comma =>
              obtain ⟨e, he⟩ := ih ts (columnNullIndex ts i₂ + 1)
                (acc ++ [⟨column_name, data_type, true⟩])
                (by omega) (by omega) (fun j hj => hno j (by omega))
              refine ⟨e, ?_⟩
              simp only [parseColumnLoop, hnt, hdt, hpk]
              exact he
            case RParen =>
              exact absurd hpk (hno (columnNullIndex ts i₂) (by omega))
            all_goals
              exact ⟨.ParserError "Expected ',' or ')' after column definition",
                by simp only [parseColumnLoop, hnt, hdt, hpk]⟩
      all_goals
        exact ⟨.ParserError "Error parsing column name",
          by simp only [parseColumnLoop, hnt]⟩

/-- C1 as stated fails on the code for the function-call half: the source
skips the expected closing parenthesis without checking for it
(`self.next_token(); // skip rparen`), so the claim's own example of an
unterminated function call parses successfully instead of failing with a
ParserError. -/
theorem c1_counterexample_function_call :
    parse_sql "SELECT sqrt(1" =
      some (.ok (.SQLSelect [.SQLFunction "sqrt" [.SQLLiteralInt 1]]
        none none none none)) := rfl

/-- C1 amended: an unterminated function call is silently accepted (the
missing `)` is skipped without checking, e.g. `SELECT sqrt(1` parses to a
SELECT whose projection is the call `sqrt(1)`), while an unterminated
CREATE TABLE column list fails with a ParserError - concretely on the
example input, and in general whenever no closing parenthesis remains in
the token sequence; in all these cases the parser returns (no panic, no
infinite loop). -/
theorem c1_unterminated_inputs :
    parse_sql "SELECT sqrt(1" =
      some (.ok (.SQLSelect [.SQLFunction "sqrt" [.SQLLiteralInt 1]]
        none none none none)) ∧
    parse_sql "CREATE EXTERNAL TABLE t (a DOUBLE" =
      some (.error (.ParserError "Expected ',' or ')' after column definition")) ∧
    (∀ fuel ts i acc, i ≤ ts.length → ts.length + 1 ≤ fuel + i →
      (∀ j, i ≤ j → ts.get? j ≠ some Token.RParen) →
      ∃ e, parseColumnLoop fuel ts i acc = some (.error e)) :=
  ⟨rfl, rfl, parseColumnLoop_no_rparen⟩

/-- Witness for C1's universal part at a concrete input: a column list cut
off right after the opening parenthesis. -/
theorem c1_unterminated_witness :
    ∃ e, parseColumnLoop 2 [Token.Identifier "a"] 0 [] = some (.error e) :=
  c1_unterminated_inputs.2.2 2 [Token.Identifier "a"] 0 []
    (by decide) (by decide)
    (fun j _ => by
      cases j with
      | zero => simp
      | succ k => cases k <;> simp [List.get?])

/-- A greedy run stops at a barrier: when the head of `B` (if any) fails
the predicate, `takeWhile` over `A ++ B` never leaves `A`. -/
theorem takeWhile_append_bounded (P : Char → Bool) :
    ∀ (A B : List Char), (∀ h, B.head? = some h → P h = false) →
      List.takeWhile P (A ++ B) = List.takeWhile P A := by
  intro A
  induction A with
  | nil =>
    intro B hB
    cases B with
    | nil => rfl
    | cons b B' =>
      simp [List.takeWhile, hB b rfl]
  | cons a A' ih =>
    intro B hB
    by_cases ha : P a
    · simp [List.takeWhile, ha, ih B hB]
    · simp [List.takeWhile, ha]

/-- The companion of `takeWhile_append_bounded` for the remainder. -/
theorem dropWhile_append_bounded (P : Char → Bool) :
    ∀ (A B : List Char), (∀ h, B.head? = some h → P h = false) →
      List.dropWhile P (A ++ B) = List.dropWhile P A ++ B := by
  intro A
  induction A with
  | nil =>
    intro B hB
    cases B with
    | nil => rfl
    | cons b B' =>
      simp [List.dropWhile, hB b rfl]
  | cons a A' ih =>
    intro B hB
    by_cases ha : P a
    · simp [List.dropWhile, ha, ih B hB]
    · simp [List.dropWhile, ha]

/-- `takeWhile` keeps a list all of whose elements satisfy the predicate. -/
theorem takeWhile_of_all (P : Char → Bool) :
    ∀ (l : List Char), l.all P = true → List.takeWhile P l = l := by
  intro l
  induction l with
  | nil => intro _; rfl
  | cons a l' ih =>
    intro h
    simp only [List.all_cons, Bool.and_eq_true] at h
    simp [List.takeWhile, h.1, ih h.2]

/-- `dropWhile` drops a list all of whose elements satisfy the predicate. -/
theorem dropWhile_of_all (P : Char → Bool) :
    ∀ (l : List Char), l.all P = true → List.dropWhile P l = [] := by
  intro l
  induction l with
  | nil => intro _; rfl
  | cons a l' ih =>
    intro h
    simp only [List.all_cons, Bool.and_eq_true] at h
    simp [List.dropWhile, h.1, ih h.2]

/-- `dropWhile` never lengthens a list. -/
theorem dropWhile_length_le (P : Char → Bool) :
    ∀ (l : List Char), (List.dropWhile P l).length ≤ l.length := by
  intro l
  induction l with
  | nil => exact Nat.le_refl 0
  | cons a l' ih =>
    by_cases ha : P a
    · simp only [List.dropWhile, ha]
      exact Nat.le_succ_of_le ih
    · simp [List.dropWhile, ha]

/-- `dropWhile` preserves a property all elements have. -/
theorem all_dropWhile_of_all (P Q : Char → Bool) :
    ∀ (l : List Char), l.all Q = true → (List.dropWhile P l).all Q = true := by
  intro l
  induction l with
  | nil => intro _; rfl
  | cons a l' ih =>
    intro h
    simp only [List.all_cons, Bool.and_eq_true] at h
    by_cases ha : P a
    · simp only [List.dropWhile, ha]
      exact ih h.2
    · simp [List.dropWhile, ha, h.1, h.2]

/-- `takeWhile` only keeps elements satisfying the predicate, so it
preserves any property implied by it - here simply: its elements all
satisfy the predicate itself. -/
theorem all_takeWhile (P : Char → Bool) :
    ∀ (l : List Char), (List.takeWhile P l).all P = true := by
  intro l
  induction l with
  | nil => rfl
  | cons a l' ih =>
    by_cases ha : P a
    · simp [List.takeWhile, ha, ih]
    · simp [List.takeWhile, ha]

/-- A leading whitespace character is invisible to `chunks`. -/
theorem chunks_ws_cons {c : Char} (h : isWsChar c = true) (r : List Char) :
    chunks (c :: r) = chunks r := by
  simp [chunks, chunksAux, h]

/-- `chunksAux` with a nonempty current chunk: the chunk is completed by
the greedy non-whitespace run and the rest is chunked afresh. -/
theorem chunksAux_nonempty :
    ∀ (rest cur : List Char), cur ≠ [] →
      chunksAux rest cur =
        (cur.reverse ++ List.takeWhile (fun d => !isWsChar d) rest) ::
          chunks (List.dropWhile (fun d => !isWsChar d) rest) := by
  intro rest
  induction rest with
  | nil =>
    intro cur hcur
    simp [chunksAux, chunks, List.isEmpty_iff, hcur]
  | cons d r ih =>
    intro cur hcur
    by_cases hd : isWsChar d
    · have : (fun d => !isWsChar d) d = false := by simp [hd]
      simp [chunksAux, hd, List.isEmpty_iff, hcur, List.takeWhile, List.dropWhile, this,
        chunks_ws_cons hd, chunks]
    · have : (fun d => !isWsChar d) d = true := by simp [hd]
      simp only [chunksAux, hd, if_false, List.takeWhile, List.dropWhile, this]
      rw [ih (d :: cur) (by simp)]
      simp

/-- A leading non-whitespace character opens a chunk: the greedy
non-whitespace run, then the chunks of the remainder. -/
theorem chunks_cons_nonws {c : Char} (h : isWsChar c = false) (r : List Char) :
    chunks (c :: r) =
      (c :: List.takeWhile (fun d => !isWsChar d) r) ::
        chunks (List.dropWhile (fun d => !isWsChar d) r) := by
  have : chunks (c :: r) = chunksAux r [c] := by simp [chunks, chunksAux, h]
  rw [this, chunksAux_nonempty r [c] (by simp)]
  simp

/-- Only all-whitespace inputs have no chunks. -/
theorem chunks_nil_all_ws :
    ∀ (cs : List Char), chunks cs = [] → cs.all isWsChar = true := by
  intro cs
  induction cs with
  | nil => intro _; rfl
  | cons c r ih =>
    intro h
    by_cases hc : isWsChar c
    · rw [chunks_ws_cons hc] at h
      simp [hc, ih h]
    · rw [chunks_cons_nonws (by simpa using hc)] at h
      simp at h

/-- What remains after dropping a greedy non-whitespace run is empty or
starts with whitespace. -/
theorem wsBounded_dropWhile (r : List Char) :
    WsBounded (List.dropWhile (fun d => !isWsChar d) r) := by
  induction r with
  | nil => intro h hh; simp at hh
  | cons d r' ih =>
    by_cases hd : isWsChar d
    · intro h hh
      have : (fun d => !isWsChar d) d = false := by simp [hd]
      simp only [List.dropWhile, this] at hh
      simp only [List.head?] at hh
      injection hh with hh
      rw [← hh]
      exact hd
    · have : (fun d => !isWsChar d) d = true := by simp [hd]
      simpa only [List.dropWhile, this] using ih

/-- A chunk decomposition of an input with at least one chunk: leading
whitespace, then the first chunk, then a whitespace-bounded tail holding
the remaining chunks. -/
theorem chunks_decomp :
    ∀ (cs C : List Char) (rest : List (List Char)), chunks cs = C :: rest →
      ∃ pre tail, cs = pre ++ (C ++ tail) ∧ pre.all isWsChar = true ∧
        C ≠ [] ∧ C.all (fun c => !isWsChar c) = true ∧ WsBounded tail ∧
        chunks tail = rest := by
  intro cs
  induction cs with
  | nil =>
    intro C rest h
    simp [chunks, chunksAux] at h
  | cons c r ih =>
    intro C rest h
    by_cases hc : isWsChar c
    · rw [chunks_ws_cons hc] at h
      obtain ⟨pre, tail, h1, h2, h3, h4, h5, h6⟩ := ih C rest h
      exact ⟨c :: pre, tail, by simp [h1], by simp [hc, h2], h3, h4, h5, h6⟩
    · rw [chunks_cons_nonws (by simpa using hc)] at h
      injection h with hC hrest
      refine ⟨[], List.dropWhile (fun d => !isWsChar d) r, ?_, rfl, ?_, ?_, ?_, hrest⟩
      · rw [← hC]
        simp [List.takeWhile_append_dropWhile]
      · rw [← hC]; simp
      · rw [← hC]
        simp only [List.all_cons, Bool.and_eq_true]
        exact ⟨by simpa using hc, all_takeWhile _ r⟩
      · exact wsBounded_dropWhile r

/-- Chunking a non-whitespace run followed by a whitespace-bounded tail:
the run is the first chunk (when nonempty). -/
theorem chunks_append_chunk :
    ∀ (C tail : List Char), C.all (fun c => !isWsChar c) = true → WsBounded tail →
      chunks (C ++ tail) = if C.isEmpty then chunks tail else C :: chunks tail := by
  intro C tail hall htail
  cases C with
  | nil => simp
  | cons c C0 =>
    simp only [List.all_cons, Bool.and_eq_true] at hall
    have hc : isWsChar c = false := by
      simpa using hall.1
    have hbar : ∀ h, tail.head? = some h → (fun d => !isWsChar d) h = false := by
      intro h hh
      simp [htail h hh]
    rw [List.cons_append, chunks_cons_nonws hc,
      takeWhile_append_bounded _ C0 tail hbar,
      dropWhile_append_bounded _ C0 tail hbar,
      takeWhile_of_all _ C0 hall.2, dropWhile_of_all _ C0 hall.2]
    simp

/-- The whitespace arm of `next_token`. -/
theorem nextToken_ws {c : Char} (h : isWsChar c = true) (rest : List Char) :
    nextToken (c :: rest) = .ok (some (.Whitespace, rest)) := by
  simp [nextToken, h]

/-- Unfolding a successful tokenize-loop run one step forward. -/
theorem tokLoop_ok_step {f : Nat} {cs cs' : List Char} {t : Token} {raw : List Token}
    (hnt : nextToken cs = .ok (some (t, cs')))
    (h : tokLoop (f + 1) cs = some (.ok raw)) :
    ∃ raw', tokLoop f cs' = some (.ok raw') ∧ raw = t :: raw' := by
  simp only [tokLoop, hnt] at h
  rcases hr : tokLoop f cs' with _ | r
  · simp [hr] at h
  · cases r with
    | error e => simp [hr] at h
    | ok ts =>
      simp only [hr, Option.some_inj, Except.ok.injEq] at h
      exact ⟨ts, rfl, h.symm⟩

/-- Building a successful tokenize-loop run one step backward. -/
theorem tokLoop_ok_build {f : Nat} {cs cs' : List Char} {t : Token} {raw' : List Token}
    (hnt : nextToken cs = .ok (some (t, cs')))
    (h : tokLoop f cs' = some (.ok raw')) :
    tokLoop (f + 1) cs = some (.ok (t :: raw')) := by
  simp only [tokLoop, hnt, h]

/-- Running the tokenizer over a whitespace run then the rest: each
whitespace character costs one step and emits one `Whitespace` token. -/
theorem tokLoop_ws_run : ∀ (pre : List Char), pre.all isWsChar = true →
    ∀ {x : List Char} {f : Nat} {raw : List Token}, tokLoop f x = some (.ok raw) →
    tokLoop (pre.length + f) (pre ++ x) =
      some (.ok (List.replicate pre.length Token.Whitespace ++ raw)) := by
  intro pre
  induction pre with
  | nil =>
    intro _ x f raw h
    simpa using h
  | cons w p ih =>
    intro hall x f raw h
    simp only [List.all_cons, Bool.and_eq_true] at hall
    have hnt : nextToken (w :: (p ++ x)) = .ok (some (.Whitespace, p ++ x)) :=
      nextToken_ws hall.1 (p ++ x)
    have hstep := tokLoop_ok_build hnt (ih hall.2 h)
    have harith : p.length + f + 1 = (w :: p).length + f := by simp; omega
    rw [harith] at hstep
    simpa [List.replicate_succ] using hstep

/-- Whitespace tokens vanish in the filter. -/
theorem filter_replicate_ws (n : Nat) :
    (List.replicate n Token.Whitespace).filter notWhitespace = [] := by
  induction n with
  | zero => rfl
  | succ k ih => simp [List.replicate_succ, List.filter_cons, notWhitespace, ih]

/-- A finished tokenize-loop run is stable under giving more fuel. -/
theorem tokLoop_mono : ∀ (f : Nat) {cs : List Char} {r : Except ParserError (List Token)},
    tokLoop f cs = some r → ∀ {g : Nat}, f ≤ g → tokLoop g cs = some r := by
  intro f
  induction f with
  | zero =>
    intro cs r h
    simp [tokLoop] at h
  | succ n ih =>
    intro cs r h g hg
    rcases g with _ | g'
    · omega
    · simp only [tokLoop] at h ⊢
      rcases hnt : nextToken cs with e | o
      · simp only [hnt] at h ⊢; exact h
      · rcases o with _ | ⟨t, cs'⟩
        · simp only [hnt] at h ⊢; exact h
        · simp only [hnt] at h ⊢
          rcases hr : tokLoop n cs' with _ | r'
          · simp [hr] at h
          · simp only [hr] at h
            rw [ih hr (by omega)]
            exact h

/-- Dropping a greedy run from a nonempty list: either at least the head
goes (strictly shorter) or nothing goes (the list is unchanged). -/
theorem dropWhile_cons_progress (P : Char → Bool) (c : Char) (rest : List Char) :
    (List.dropWhile P (c :: rest)).length < (c :: rest).length ∨
      List.dropWhile P (c :: rest) = c :: rest := by
  by_cases hc : P c
  · left
    simp only [List.dropWhile, hc]
    have := dropWhile_length_le P rest
    simp only [List.length_cons]
    omega
  · right
    simp [List.dropWhile, hc]

/-- Each productive tokenizer step either consumes at least one character
or consumes nothing at all (the `@` stall of the identifier branch). -/
theorem nextToken_progress : ∀ {cs cs' : List Char} {t : Token},
    nextToken cs = .ok (some (t, cs')) → cs'.length < cs.length ∨ cs' = cs := by
  intro cs cs' t h
  cases cs with
  | nil => simp [nextToken] at h
  | cons c rest =>
    simp only [nextToken] at h
    by_cases h1 : isWsChar c = true
    · rw [if_pos h1] at h
      simp only [Except.ok.injEq, Option.some_inj, Prod.mk.injEq] at h
      left; rw [← h.2]; simp
    rw [if_neg h1] at h
    by_cases h2 : isIdentStart c = true
    · rw [if_pos h2] at h
      rcases em (KEYWORDS.contains
          (String.mk (List.takeWhile isIdentCont (c :: rest))) = true) with hk | hk
      · rw [if_pos hk] at h
        simp only [Except.ok.injEq, Option.some_inj, Prod.mk.injEq] at h
        rw [← h.2]
        exact dropWhile_cons_progress _ c rest
      · rw [if_neg hk] at h
        simp only [Except.ok.injEq, Option.some_inj, Prod.mk.injEq] at h
        rw [← h.2]
        exact dropWhile_cons_progress _ c rest
    rw [if_neg h2] at h
    by_cases h3 : isDigitChar c = true
    · rw [if_pos h3] at h
      simp only [Except.ok.injEq, Option.some_inj, Prod.mk.injEq] at h
      rw [← h.2]
      exact dropWhile_cons_progress _ c rest
    rw [if_neg h3] at h
    by_cases h4 : c = ','
    · rw [if_pos h4] at h
      simp only [Except.ok.injEq, Option.some_inj, Prod.mk.injEq] at h
      left; rw [← h.2]; simp
    rw [if_neg h4] at h
    by_cases h5 : c = '('
    · rw [if_pos h5] at h
      simp only [Except.ok.injEq, Option.some_inj, Prod.mk.injEq] at h
      left; rw [← h.2]; simp
    rw [if_neg h5] at h
    by_cases h6 : c = ')'
    · rw [if_pos h6] at h
      simp only [Except.ok.injEq, Option.some_inj, Prod.mk.injEq] at h
      left; rw [← h.2]; simp
    rw [if_neg h6] at h
    by_cases h7 : c = '+'
    · rw [if_pos h7] at h
      simp only [Except.ok.injEq, Option.some_inj, Prod.mk.injEq] at h
      left; rw [← h.2]; simp
    rw [if_neg h7] at h
    by_cases h8 : c = '-'
    · rw [if_pos h8] at h
      simp only [Except.ok.injEq, Option.some_inj, Prod.mk.injEq] at h
      left; rw [← h.2]; simp
    rw [if_neg h8] at h
    by_cases h9 : c = '*'
    · rw [if_pos h9] at h
      simp only [Except.ok.injEq, Option.some_inj, Prod.mk.injEq] at h
      left; rw [← h.2]; simp
    rw [if_neg h9] at h
    by_cases h10 : c = '/'
    · rw [if_pos h10] at h
      simp only [Except.ok.injEq, Option.some_inj, Prod.mk.injEq] at h
      left; rw [← h.2]; simp
    rw [if_neg h10] at h
    by_cases h11 : c = '='
    · rw [if_pos h11] at h
      simp only [Except.ok.injEq, Option.some_inj, Prod.mk.injEq] at h
      left; rw [← h.2]; simp
    rw [if_neg h11] at h
    by_cases h12 : c = '<'
    · rw [if_pos h12] at h
      rcases rest with _ | ⟨d, rest2⟩ <;> dsimp only at h
      · simp only [Except.ok.injEq, Option.some_inj, Prod.mk.injEq] at h
        left; rw [← h.2]; simp
      · by_cases hd1 : d = '='
        · rw [if_pos hd1] at h
          simp only [Except.ok.injEq, Option.some_inj, Prod.mk.injEq] at h
          left; rw [← h.2]; simp only [List.length_cons]; omega
        rw [if_neg hd1] at h
        by_cases hd2 : d = '>'
        · rw [if_pos hd2] at h
          simp only [Except.ok.injEq, Option.some_inj, Prod.mk.injEq] at h
          left; rw [← h.2]; simp only [List.length_cons]; omega
        rw [if_neg hd2] at h
        simp only [Except.ok.injEq, Option.some_inj, Prod.mk.injEq] at h
        left; rw [← h.2]; simp only [List.length_cons]; omega
    rw [if_neg h12] at h
    by_cases h13 : c = '>'
    · rw [if_pos h13] at h
      rcases rest with _ | ⟨d, rest2⟩ <;> dsimp only at h
      · simp only [Except.ok.injEq, Option.some_inj, Prod.mk.injEq] at h
        left; rw [← h.2]; simp
      · by_cases hd1 : d = '='
        · rw [if_pos hd1] at h
          simp only [Except.ok.injEq, Option.some_inj, Prod.mk.injEq] at h
          left; rw [← h.2]; simp only [List.length_cons]; omega
        rw [if_neg hd1] at h
        simp only [Except.ok.injEq, Option.some_inj, Prod.mk.injEq] at h
        left; rw [← h.2]; simp only [List.length_cons]; omega
    rw [if_neg h13] at h
    simp at h

/-- A finished tokenize-loop run needs at most `length + 1` fuel: the
canonical fuel of `tokenize` reproduces any terminating run. -/
theorem tokLoop_canon : ∀ (f : Nat) {cs : List Char} {r : Except ParserError (List Token)},
    tokLoop f cs = some r → tokLoop (cs.length + 1) cs = some r := by
  intro f
  induction f with
  | zero =>
    intro cs r h
    simp [tokLoop] at h
  | succ g ih =>
    intro cs r h
    rcases hnt : nextToken cs with e | o
    · simp only [tokLoop, hnt] at h ⊢
      exact h
    · rcases o with _ | ⟨t, cs'⟩
      · simp only [tokLoop, hnt] at h ⊢
        exact h
      · rcases nextToken_progress hnt with hlt | heq
        · simp only [tokLoop, hnt] at h ⊢
          rcases hr : tokLoop g cs' with _ | r'
          · simp [hr] at h
          · simp only [hr] at h
            have hc : tokLoop (cs'.length + 1) cs' = some r' := ih hr
            have hm : tokLoop cs.length cs' = some r' := tokLoop_mono _ hc (by omega)
            simp only [hm]
            exact h
        · rw [heq] at hnt
          rw [tokLoop_stall hnt (g + 1)] at h
          simp at h

/-- The three whitespace characters, by cases. -/
theorem isWsChar_elim {h : Char} (hw : isWsChar h = true) :
    h = ' ' ∨ h = '\t' ∨ h = '\n' := by
  simpa [isWsChar, or_assoc] using hw

/-- Whitespace never continues an identifier run. -/
theorem ws_not_identCont {h : Char} (hw : isWsChar h = true) :
    isIdentCont h = false := by
  rcases isWsChar_elim hw with rfl | rfl | rfl <;> decide

/-- Whitespace is never a digit. -/
theorem ws_not_digitChar {h : Char} (hw : isWsChar h = true) :
    isDigitChar h = false := by
  rcases isWsChar_elim hw with rfl | rfl | rfl <;> decide

/-- Whitespace is not the `=` character. -/
theorem ws_ne_eq_char {h : Char} (hw : isWsChar h = true) : ¬h = '=' := by
  rcases isWsChar_elim hw with rfl | rfl | rfl <;> decide

/-- Whitespace is not the `>` character. -/
theorem ws_ne_gt_char {h : Char} (hw : isWsChar h = true) : ¬h = '>' := by
  rcases isWsChar_elim hw with rfl | rfl | rfl <;> decide

/-- The tokenizer step over a non-whitespace run followed by a
whitespace-bounded tail: the step ignores the tail - it produces the same
error, or the same token with the same split of the run, as the step over
the run alone. -/
theorem nextToken_chunk_one :
    ∀ (c : Char) (C0 tail : List Char), isWsChar c = false →
      C0.all (fun x => !isWsChar x) = true → WsBounded tail →
      (∃ e, nextToken ((c :: C0) ++ tail) = .error e ∧
        nextToken (c :: C0) = .error e) ∨
      (∃ t C', C'.all (fun x => !isWsChar x) = true ∧
        nextToken ((c :: C0) ++ tail) = .ok (some (t, C' ++ tail)) ∧
        nextToken (c :: C0) = .ok (some (t, C'))) := by
  intro c C0 tail hcw hall htail
  have hallc : (c :: C0).all (fun x => !isWsChar x) = true := by
    simp only [List.all_cons, Bool.and_eq_true]
    exact ⟨by simp [hcw], hall⟩
  by_cases h2 : isIdentStart c = true
  · -- identifier / keyword arm
    right
    have hbar : ∀ hh, tail.head? = some hh → isIdentCont hh = false :=
      fun hh hhh => ws_not_identCont (htail hh hhh)
    have htw := takeWhile_append_bounded isIdentCont (c :: C0) tail hbar
    have hdw := dropWhile_append_bounded isIdentCont (c :: C0) tail hbar
    simp only [List.cons_append] at htw hdw
    refine ⟨if KEYWORDS.contains (String.mk (List.takeWhile isIdentCont (c :: C0))) then
        Token.Keyword (String.mk (List.takeWhile isIdentCont (c :: C0)))
      else Token.Identifier (String.mk (List.takeWhile isIdentCont (c :: C0))),
      List.dropWhile isIdentCont (c :: C0), ?_, ?_, ?_⟩
    · exact all_dropWhile_of_all _ _ _ hallc
    · simp only [List.cons_append, nextToken, hcw, h2, htw, hdw]
      simp only [Bool.false_eq_true, if_false, if_true]
      split <;> rfl
    · simp only [nextToken, hcw, h2]
      simp only [Bool.false_eq_true, if_false, if_true]
      split <;> rfl
  by_cases h3 : isDigitChar c = true
  · -- number arm
    right
    have hbar : ∀ hh, tail.head? = some hh → isDigitChar hh = false :=
      fun hh hhh => ws_not_digitChar (htail hh hhh)
    have htw := takeWhile_append_bounded isDigitChar (c :: C0) tail hbar
    have hdw := dropWhile_append_bounded isDigitChar (c :: C0) tail hbar
    simp only [List.cons_append] at htw hdw
    refine ⟨Token.Number (String.mk (List.takeWhile isDigitChar (c :: C0))),
      List.dropWhile isDigitChar (c :: C0), ?_, ?_, ?_⟩
    · exact all_dropWhile_of_all _ _ _ hallc
    · simp only [List.cons_append, nextToken, hcw, h2, h3, htw, hdw]
      simp only [Bool.false_eq_true, if_false, if_true]
    · simp only [nextToken, hcw, h2, h3]
      simp only [Bool.false_eq_true, if_false, if_true]
  by_cases h4 : c = ','
  · subst h4
    exact Or.inr ⟨.Comma, C0, hall, rfl, rfl⟩
  by_cases h5 : c = '('
  · subst h5
    exact Or.inr ⟨.LParen, C0, hall, rfl, rfl⟩
  by_cases h6 : c = ')'
  · subst h6
    exact Or.inr ⟨.RParen, C0, hall, rfl, rfl⟩
  by_cases h7 : c = '+'
  · subst h7
    exact Or.inr ⟨.Plus, C0, hall, rfl, rfl⟩
  by_cases h8 : c = '-'
  · subst h8
    exact Or.inr ⟨.Minus, C0, hall, rfl, rfl⟩
  by_cases h9 : c = '*'
  · subst h9
    exact Or.inr ⟨.Mult, C0, hall, rfl, rfl⟩
  by_cases h10 : c = '/'
  · subst h10
    exact Or.inr ⟨.Div, C0, hall, rfl, rfl⟩
  by_cases h11 : c = '='
  · subst h11
    exact Or.inr ⟨.Eq, C0, hall, rfl, rfl⟩
  by_cases h12 : c = '<'
  · subst h12
    right
    rcases C0 with _ | ⟨d, C0'⟩
    · -- the peek looks at the tail, which is whitespace or empty, so both
      -- runs emit Lt and consume only the angle bracket
      refine ⟨.Lt, [], rfl, ?_, rfl⟩
      rcases htl : tail with _ | ⟨hh, tt⟩
      · rfl
      · have hwh : isWsChar hh = true := htail hh (by rw [htl]; rfl)
        show (if hh = '=' then Except.ok (some (Token.LtEq, tt))
          else if hh = '>' then Except.ok (some (Token.Neq, tt))
          else Except.ok (some (Token.Lt, hh :: tt))) =
            Except.ok (some (Token.Lt, [] ++ hh :: tt))
        rw [if_neg (ws_ne_eq_char hwh), if_neg (ws_ne_gt_char hwh)]
        rfl
    · simp only [List.all_cons, Bool.and_eq_true] at hall
      by_cases hd1 : d = '='
      · subst hd1
        exact ⟨.LtEq, C0', hall.2, rfl, rfl⟩
      by_cases hd2 : d = '>'
      · subst hd2
        exact ⟨.Neq, C0', hall.2, rfl, rfl⟩
      have hall2 : ((d :: C0').all fun x => !isWsChar x) = true := by
        simp only [List.all_cons, Bool.and_eq_true]
        exact ⟨hall.1, hall.2⟩
      refine ⟨.Lt, d :: C0', hall2, ?_, ?_⟩
      · show (if d = '=' then Except.ok (some (Token.LtEq, C0' ++ tail))
          else if d = '>' then Except.ok (some (Token.Neq, C0' ++ tail))
          else Except.ok (some (Token.Lt, d :: (C0' ++ tail)))) =
            Except.ok (some (Token.Lt, (d :: C0') ++ tail))
        rw [if_neg hd1, if_neg hd2]
        rfl
      · show (if d = '=' then Except.ok (some (Token.LtEq, C0'))
          else if d = '>' then Except.ok (some (Token.Neq, C0'))
          else Except.ok (some (Token.Lt, d :: C0'))) =
            Except.ok (some (Token.Lt, d :: C0'))
        rw [if_neg hd1, if_neg hd2]
  by_cases h13 : c = '>'
  · subst h13
    right
    rcases C0 with _ | ⟨d, C0'⟩
    · refine ⟨.Gt, [], rfl, ?_, rfl⟩
      rcases htl : tail with _ | ⟨hh, tt⟩
      · rfl
      · have hwh : isWsChar hh = true := htail hh (by rw [htl]; rfl)
        show (if hh = '=' then Except.ok (some (Token.GtEq, tt))
          else Except.ok (some (Token.Gt, hh :: tt))) =
            Except.ok (some (Token.Gt, [] ++ hh :: tt))
        rw [if_neg (ws_ne_eq_char hwh)]
        rfl
    · simp only [List.all_cons, Bool.and_eq_true] at hall
      by_cases hd1 : d = '='
      · subst hd1
        exact ⟨.GtEq, C0', hall.2, rfl, rfl⟩
      have hall2 : ((d :: C0').all fun x => !isWsChar x) = true := by
        simp only [List.all_cons, Bool.and_eq_true]
        exact ⟨hall.1, hall.2⟩
      refine ⟨.Gt, d :: C0', hall2, ?_, ?_⟩
      · show (if d = '=' then Except.ok (some (Token.GtEq, C0' ++ tail))
          else Except.ok (some (Token.Gt, d :: (C0' ++ tail)))) =
            Except.ok (some (Token.Gt, (d :: C0') ++ tail))
        rw [if_neg hd1]
        rfl
      · show (if d = '=' then Except.ok (some (Token.GtEq, C0'))
          else Except.ok (some (Token.Gt, d :: C0'))) =
            Except.ok (some (Token.Gt, d :: C0'))
        rw [if_neg hd1]
  -- unhandled character: the same TokenizerError on both inputs
  left
  refine ⟨.TokenizerError ("unhandled char '" ++ String.mk [c] ++ "' in tokenizer"),
    ?_, ?_⟩
  · simp only [List.cons_append, nextToken, hcw, h2, h3]
    simp only [Bool.false_eq_true, if_false]
    rw [if_neg h4, if_neg h5, if_neg h6, if_neg h7, if_neg h8, if_neg h9,
      if_neg h10, if_neg h11, if_neg h12, if_neg h13]
  · simp only [nextToken, hcw, h2, h3]
    simp only [Bool.false_eq_true, if_false]
    rw [if_neg h4, if_neg h5, if_neg h6, if_neg h7, if_neg h8, if_neg h9,
      if_neg h10, if_neg h11, if_neg h12, if_neg h13]

/-- Two whitespace-bounded tails after the same non-whitespace run: the
tokenizer step treats them identically (same error, or same token and same
consumption from the run). -/
theorem nextToken_chunk (c : Char) (C0 tail1 tail2 : List Char)
    (hcw : isWsChar c = false) (hall : C0.all (fun x => !isWsChar x) = true)
    (ht1 : WsBounded tail1) (ht2 : WsBounded tail2) :
    (∃ e, nextToken ((c :: C0) ++ tail1) = .error e ∧
      nextToken ((c :: C0) ++ tail2) = .error e) ∨
    (∃ t C', C'.all (fun x => !isWsChar x) = true ∧
      nextToken ((c :: C0) ++ tail1) = .ok (some (t, C' ++ tail1)) ∧
      nextToken ((c :: C0) ++ tail2) = .ok (some (t, C' ++ tail2))) := by
  rcases nextToken_chunk_one c C0 tail1 hcw hall ht1 with
    ⟨e, he1, he0⟩ | ⟨t, C', hC', h1, h0⟩
  · rcases nextToken_chunk_one c C0 tail2 hcw hall ht2 with
      ⟨e2, he2, he0'⟩ | ⟨t2, C2', _, h2', h0'⟩
    · left
      rw [he0] at he0'
      injection he0' with he
      exact ⟨e, he1, he ▸ he2⟩
    · rw [he0] at h0'
      simp at h0'
  · rcases nextToken_chunk_one c C0 tail2 hcw hall ht2 with
      ⟨e2, he2, he0'⟩ | ⟨t2, C2', _, h2', h0'⟩
    · rw [h0] at he0'
      simp at he0'
    · right
      rw [h0] at h0'
      simp only [Except.ok.injEq, Option.some_inj, Prod.mk.injEq] at h0'
      obtain ⟨hteq, hCeq⟩ := h0'
      exact ⟨t, C', hC', h1, by rw [hteq, hCeq]; exact h2'⟩

/-- The heart of whitespace invariance: a terminating tokenizer run on one
input yields a terminating run on any input with the same chunks, with the
same whitespace-filtered tokens. -/
theorem tokLoop_chunks_congr : ∀ (f : Nat) (cs1 cs2 : List Char) (raw1 : List Token),
    chunks cs1 = chunks cs2 → tokLoop f cs1 = some (.ok raw1) →
    ∃ f2 raw2, tokLoop f2 cs2 = some (.ok raw2) ∧
      raw1.filter notWhitespace = raw2.filter notWhitespace := by
  intro f
  induction f with
  | zero =>
    intro cs1 cs2 raw1 _ h
    simp [tokLoop] at h
  | succ g ih =>
    intro cs1 cs2 raw1 hch h
    cases cs1 with
    | nil =>
      have hraw : raw1 = [] := by
        simp only [tokLoop, nextToken, Option.some_inj, Except.ok.injEq] at h
        exact h.symm
      subst hraw
      have hall : cs2.all isWsChar = true := chunks_nil_all_ws cs2 (by rw [← hch]; rfl)
      refine ⟨cs2.length + 1, List.replicate cs2.length Token.Whitespace, ?_, ?_⟩
      · have hrun := @tokLoop_ws_run cs2 hall [] 1 [] rfl
        simpa using hrun
      · simp [filter_replicate_ws]
    | cons c r1 =>
      by_cases hc : isWsChar c = true
      · obtain ⟨raw1', hr1, hraw⟩ := tokLoop_ok_step (nextToken_ws hc r1) h
        subst hraw
        have hch' : chunks r1 = chunks cs2 := by rw [← chunks_ws_cons hc r1]; exact hch
        obtain ⟨f2, raw2, h2, hf⟩ := ih r1 cs2 raw1' hch' hr1
        refine ⟨f2, raw2, h2, ?_⟩
        simpa [List.filter_cons, notWhitespace] using hf
      · have hc' : isWsChar c = false := by simpa using hc
        have hsplit : c :: r1 = (c :: List.takeWhile (fun d => !isWsChar d) r1) ++
            List.dropWhile (fun d => !isWsChar d) r1 := by
          simp [List.takeWhile_append_dropWhile]
        have hch1 : chunks (c :: r1) =
            (c :: List.takeWhile (fun d => !isWsChar d) r1) ::
              chunks (List.dropWhile (fun d => !isWsChar d) r1) :=
          chunks_cons_nonws hc' r1
        have hch2 : chunks cs2 =
            (c :: List.takeWhile (fun d => !isWsChar d) r1) ::
              chunks (List.dropWhile (fun d => !isWsChar d) r1) := by
          rw [← hch, hch1]
        obtain ⟨pre2, tail2, hcs2, hpre2, _, hCall, ht2, hct2⟩ :=
          chunks_decomp cs2 _ _ hch2
        have ht1w : WsBounded (List.dropWhile (fun d => !isWsChar d) r1) :=
          wsBounded_dropWhile r1
        have hC0all : (List.takeWhile (fun d => !isWsChar d) r1).all
            (fun x => !isWsChar x) = true := all_takeWhile _ r1
        rw [hsplit] at h
        rcases nextToken_chunk c (List.takeWhile (fun d => !isWsChar d) r1)
            (List.dropWhile (fun d => !isWsChar d) r1) tail2 hc' hC0all ht1w ht2 with
          ⟨e, he1, he2⟩ | ⟨t, C', hC'all, hnt1, hnt2⟩
        · simp only [tokLoop, he1] at h
          simp at h
        · obtain ⟨raw1', hr1, hraw⟩ := tokLoop_ok_step hnt1 h
          subst hraw
          have hcheq : chunks (C' ++ List.dropWhile (fun d => !isWsChar d) r1) =
              chunks (C' ++ tail2) := by
            rw [chunks_append_chunk C' _ hC'all ht1w,
              chunks_append_chunk C' tail2 hC'all ht2, hct2]
          obtain ⟨f2, raw2, h2run, hfeq⟩ := ih _ _ raw1' hcheq hr1
          have hstep2 := tokLoop_ok_build hnt2 h2run
          have hpre := tokLoop_ws_run pre2 hpre2 hstep2
          refine ⟨pre2.length + (f2 + 1),
            List.replicate pre2.length Token.Whitespace ++ (t :: raw2), ?_, ?_⟩
          · rw [hcs2]
            exact hpre
          · simp only [List.filter_append, filter_replicate_ws, List.nil_append,
              List.filter_cons]
            rw [hfeq]

/-- C8: tokenization is invariant to the amount (but not presence) of
whitespace between lexemes.  First, `tokenize` succeeds with `ts` exactly
when some terminating run of the tokenize loop produces `ts` after
whitespace filtering; second, any two inputs with the same non-whitespace
chunks (same lexemes, arbitrary whitespace around them - in particular
inputs differing only in the amount of whitespace between the same
lexemes) tokenize to identical filtered token sequences; and the spec's
example pair tokenizes identically. -/
theorem c8_whitespace_invariance :
    (∀ (s : String) (ts : List Token),
      tokenize s = some (.ok ts) ↔ TokenizeOk s.data ts) ∧
    (∀ (s1 s2 : String), chunks s1.data = chunks s2.data →
      ∀ ts, (tokenize s1 = some (.ok ts) ↔ tokenize s2 = some (.ok ts))) ∧
    tokenize "SELECT  1" = tokenize "SELECT 1" := by
  have hbridge : ∀ (s : String) (ts : List Token),
      tokenize s = some (.ok ts) ↔ TokenizeOk s.data ts := by
    intro s ts
    constructor
    · intro h
      have hlen : s.length = s.data.length := rfl
      simp only [tokenize] at h
      rw [hlen] at h
      rcases hr : tokLoop (s.data.length + 1) s.data with _ | r
      · rw [hr] at h
        simp at h
      · rcases r with e | raw
        · rw [hr] at h
          simp at h
        · rw [hr] at h
          simp only [Option.some_inj, Except.ok.injEq] at h
          exact ⟨_, raw, hr, h.symm⟩
    · rintro ⟨f, raw, hrun, hts⟩
      have hc := tokLoop_canon f hrun
      have hlen : s.length = s.data.length := rfl
      simp only [tokenize]
      rw [hlen]
      simp only [hc]
      rw [hts]
  refine ⟨hbridge, ?_, rfl⟩
  intro s1 s2 hch ts
  constructor
  · intro h
    obtain ⟨f, raw, hrun, hts⟩ := (hbridge s1 ts).mp h
    obtain ⟨f2, raw2, hrun2, hfeq⟩ :=
      tokLoop_chunks_congr f s1.data s2.data raw hch hrun
    exact (hbridge s2 ts).mpr ⟨f2, raw2, hrun2, by rw [hts, hfeq]⟩
  · intro h
    obtain ⟨f, raw, hrun, hts⟩ := (hbridge s2 ts).mp h
    obtain ⟨f2, raw2, hrun2, hfeq⟩ :=
      tokLoop_chunks_congr f s2.data s1.data raw hch.symm hrun
    exact (hbridge s1 ts).mpr ⟨f2, raw2, hrun2, by rw [hts, hfeq]⟩

/-- Witness for C8 at the spec's example pair. -/
theorem c8_whitespace_witness :
    tokenize "SELECT  1" = some (.ok [Token.Keyword "SELECT", Token.Number "1"]) ∧
    tokenize "SELECT 1" = some (.ok [Token.Keyword "SELECT", Token.Number "1"]) :=
  ⟨(c8_whitespace_invariance.2.1 "SELECT 1" "SELECT  1" (by decide)
      [Token.Keyword "SELECT", Token.Number "1"]).mp rfl, rfl⟩

end DataFusion
